import Mathlib

/-!
Verification of the VocalTractVisualizer DSP core against its specification.

The development shallowly embeds the numeric pipeline of the repository:
the circular audio buffer and audio buffer processor
(`src/audio/AudioBuffer.ts`), the FFT engine (`src/utils/fft.ts`), the LPC
engine (`src/utils/lpc.ts`) and the pitch estimator of the feature
extractor (`src/audio/FeatureExtractor.ts`).

Number model: JavaScript numbers are embedded as `JSNum`, an exact-rational
carrier extended with the IEEE-754 special values `inf`/`nan` (signed
infinities and NaN).  All arithmetic used by the embedded code is total and
follows the IEEE rules for special values (0/0 = NaN, x/0 = ±∞ for x ≠ 0,
NaN propagation, NaN incomparable).  Rounding is not modelled: every
concrete trace evaluated below involves only values on which float
arithmetic is exact (small integers, quarters, exact zeros), so the
structure of each result (which entries are 0, 1, NaN, ∞, the lengths, the
control flow taken) is identical to the JavaScript behaviour.  Square root
and the trigonometric twiddle factors are irrational in general, so the
embedding takes them as function parameters; properties proved for every
parameter hold in particular for the real functions, and concrete
evaluations only ever apply them at points where the exact value is
rational and supplied explicitly.

Reads out of the bounds of a `Float32Array` yield `undefined` in
JavaScript, which behaves as NaN in arithmetic and when stored back into a
`Float32Array`; list reads in the model therefore default to `JSNum.nan`.
-/

inductive JSNum where
  | num (q : ℚ)
  | inf (pos : Bool)
  | nan
deriving DecidableEq, Repr

/-- IEEE negation. -/
def jsNeg : JSNum → JSNum
  | .num q => .num (-q)
  | .inf p => .inf (!p)
  | .nan => .nan

/-- IEEE addition (exact on finite values). -/
def jsAdd : JSNum → JSNum → JSNum
  | .nan, _ => .nan
  | _, .nan => .nan
  | .num a, .num b => .num (a + b)
  | .num _, .inf p => .inf p
  | .inf p, .num _ => .inf p
  | .inf p, .inf q => if p = q then .inf p else .nan

/-- IEEE subtraction: `a - b = a + (-b)`. -/
def jsSub (a b : JSNum) : JSNum := jsAdd a (jsNeg b)

/-- IEEE multiplication (exact on finite values); `0 · ∞ = NaN`. -/
def jsMul : JSNum → JSNum → JSNum
  | .nan, _ => .nan
  | _, .nan => .nan
  | .num a, .num b => .num (a * b)
  | .num a, .inf p => if a = 0 then .nan else if 0 < a then .inf p else .inf (!p)
  | .inf p, .num a => if a = 0 then .nan else if 0 < a then .inf p else .inf (!p)
  | .inf p, .inf q => .inf (p = q)

/-- IEEE division: `0/0 = NaN`, `x/0 = ±∞` for finite `x ≠ 0` (the model
carries no signed zero; a zero divisor is treated as `+0`, which is the
only zero arising in the traces evaluated here). -/
def jsDiv : JSNum → JSNum → JSNum
  | .nan, _ => .nan
  | _, .nan => .nan
  | .num a, .num b =>
      if b = 0 then (if a = 0 then .nan else .inf (decide (0 < a)))
      else .num (a / b)
  | .num _, .inf _ => .num 0
  | .inf p, .num b => if 0 ≤ b then .inf p else .inf (!p)
  | .inf _, .inf _ => .nan

/-- Model of `Math.sqrt`, parameterised by the (rounded) square root on non-negative
rationals; `sqrt` of a negative number or NaN is NaN. -/
def jsSqrt (sqrtF : ℚ → ℚ) : JSNum → JSNum
  | .nan => .nan
  | .inf p => if p then .inf true else .nan
  | .num q => if q < 0 then .nan else .num (sqrtF q)

/-- JavaScript `<`: false whenever either side is NaN. -/
def jsLt : JSNum → JSNum → Bool
  | .nan, _ => false
  | _, .nan => false
  | .num a, .num b => decide (a < b)
  | .num _, .inf p => p
  | .inf p, .num _ => !p
  | .inf p, .inf q => !p && q

/-- JavaScript `<=`: false whenever either side is NaN. -/
def jsLe : JSNum → JSNum → Bool
  | .nan, _ => false
  | _, .nan => false
  | .num a, .num b => decide (a ≤ b)
  | .num _, .inf p => p
  | .inf p, .num _ => !p
  | .inf p, .inf q => !p || q

/-- Model of `Math.min` of two arguments: NaN if either argument is NaN. -/
def jsMin : JSNum → JSNum → JSNum
  | .nan, _ => .nan
  | _, .nan => .nan
  | a, b => if jsLt b a then b else a

/-- Model of `Math.max` of two arguments: NaN if either argument is NaN. -/
def jsMax : JSNum → JSNum → JSNum
  | .nan, _ => .nan
  | _, .nan => .nan
  | a, b => if jsLt a b then b else a

/-- Indexed read from a `Float32Array`: out of bounds gives `undefined`,
which behaves as NaN. -/
def jsGet (l : List JSNum) (i : ℕ) : JSNum := l.getD i JSNum.nan


/-! ## Circular audio buffer (`CircularBuffer` in `src/audio/AudioBuffer.ts`)

The backing `Float32Array` is a `List JSNum` of length `size`.  The
constructor's descending candidate-size ladder always succeeds at its first
candidate `size ≤ size` in the model (allocation cannot fail), so a fresh
buffer of requested capacity `S` has `size = S` and zero-filled storage. -/

structure CircularBuffer where
  buffer : List JSNum
  writeIndex : ℕ
  readIndex : ℕ
  size : ℕ
  filled : Bool
deriving DecidableEq, Repr

def CircularBuffer.new (S : ℕ) : CircularBuffer :=
  { buffer := List.replicate S (JSNum.num 0)
    writeIndex := 0
    readIndex := 0
    size := S
    filled := false }

/-- One iteration of the `write` loop: store the sample at the write
cursor, advance it modulo `size`, and on collision with the read cursor
mark the buffer full and push the read cursor forward by one. -/
def writeOne (cb : CircularBuffer) (x : JSNum) : CircularBuffer :=
  let buf := cb.buffer.set cb.writeIndex x
  let wi := (cb.writeIndex + 1) % cb.size
  if wi = cb.readIndex then
    { buffer := buf, writeIndex := wi, readIndex := (cb.readIndex + 1) % cb.size
      size := cb.size, filled := true }
  else
    { buffer := buf, writeIndex := wi, readIndex := cb.readIndex
      size := cb.size, filled := cb.filled }

def CircularBuffer.write (cb : CircularBuffer) (data : List JSNum) : CircularBuffer :=
  data.foldl writeOne cb

/-- One iteration of the `read` loop: an empty buffer (not filled, cursors
equal) yields `0` and leaves the state unchanged; otherwise the sample at
the read cursor is consumed, and catching up to the write cursor clears
the `filled` flag. -/
def readOne (cb : CircularBuffer) : JSNum × CircularBuffer :=
  if cb.filled = false ∧ cb.readIndex = cb.writeIndex then
    (JSNum.num 0, cb)
  else
    let v := jsGet cb.buffer cb.readIndex
    let ri := (cb.readIndex + 1) % cb.size
    let f := if ri = cb.writeIndex then false else cb.filled
    (v, { buffer := cb.buffer, writeIndex := cb.writeIndex, readIndex := ri
          size := cb.size, filled := f })

def CircularBuffer.read (cb : CircularBuffer) : ℕ → List JSNum × CircularBuffer
  | 0 => ([], cb)
  | n + 1 =>
    let p := readOne cb
    let q := CircularBuffer.read p.2 n
    (p.1 :: q.1, q.2)

/-- First backing-store index probed by `peek(length, offset)`:
`(writeIndex - length - offset + size) % size` with JavaScript `%`
(truncated remainder, sign of the dividend). -/
def peekStart (cb : CircularBuffer) (length offset : ℕ) : ℤ :=
  Int.tmod ((cb.writeIndex : ℤ) - (length : ℤ) - (offset : ℤ) + (cb.size : ℤ)) (cb.size : ℤ)

def peekIndicesFrom (S : ℕ) : ℕ → ℤ → List ℤ
  | 0, _ => []
  | n + 1, idx => idx :: peekIndicesFrom S n (Int.tmod (idx + 1) (S : ℤ))

/-- All backing-store indices probed by `peek(length, offset)`, in order. -/
def peekIndices (cb : CircularBuffer) (length offset : ℕ) : List ℤ :=
  peekIndicesFrom cb.size length (peekStart cb length offset)

/-- Model of `peek`: reads `length` samples without moving the cursors; an index
outside the backing store reads `undefined`, i.e. NaN. -/
def CircularBuffer.peek (cb : CircularBuffer) (length : ℕ) (offset : ℕ := 0) : List JSNum :=
  (peekIndices cb length offset).map fun i =>
    if 0 ≤ i ∧ i < (cb.size : ℤ) then jsGet cb.buffer i.toNat else JSNum.nan

def CircularBuffer.clear (cb : CircularBuffer) : CircularBuffer :=
  { buffer := cb.buffer.map fun _ => JSNum.num 0
    writeIndex := 0, readIndex := 0, size := cb.size, filled := false }

def CircularBuffer.getAvailableData (cb : CircularBuffer) : ℕ :=
  if cb.filled then cb.size
  else if cb.readIndex ≤ cb.writeIndex then cb.writeIndex - cb.readIndex
  else cb.size - cb.readIndex + cb.writeIndex

def CircularBuffer.isFull (cb : CircularBuffer) : Bool := cb.filled

/-- States reachable from a freshly constructed buffer of capacity `S ≥ 1`
by any sequence of `write`, `read` and `clear` calls. -/
inductive Reachable (S : ℕ) : CircularBuffer → Prop
  | fresh (h : 1 ≤ S) : Reachable S (CircularBuffer.new S)
  | write (cb : CircularBuffer) (data : List JSNum) :
      Reachable S cb → Reachable S (cb.write data)
  | read (cb : CircularBuffer) (n : ℕ) :
      Reachable S cb → Reachable S (cb.read n).2
  | clear (cb : CircularBuffer) :
      Reachable S cb → Reachable S cb.clear

/-- Structural invariant of every reachable buffer state: the size and the
backing-store length equal the capacity and both cursors are in range. -/
def BufInv (S : ℕ) (cb : CircularBuffer) : Prop :=
  cb.size = S ∧ cb.buffer.length = S ∧ cb.writeIndex < S ∧ cb.readIndex < S

/-! ## Audio buffer processor (`AudioBufferProcessor` in `src/audio/AudioBuffer.ts`)

Only the state read by `getWindowedFrames` is modelled: the internal
circular buffer, `frameSize`, `hopSize`, and the stored window function
(created once from the Blackman formula, whose cosine values are
irrational; the window contents never matter to the properties below, so
the list is carried as abstract state).  The constructor clamps
`frameSize` to `[256, 4096]` and `hopSize` to `[128, frameSize]`; the
lemmas below quantify over all states, which subsumes every constructible
one. -/

structure AudioBufferProcessor where
  inputBuffer : CircularBuffer
  frameSize : ℕ
  hopSize : ℕ
  windowFunction : List JSNum
deriving Repr

/-- Element-wise product of a frame with the stored window function. -/
def windowedFrame (p : AudioBufferProcessor) (frame : List JSNum) : List JSNum :=
  (List.range p.frameSize).map fun i => jsMul (jsGet frame i) (jsGet p.windowFunction i)

/-- The `while` loop of `getWindowedFrames`, with fuel.  Crucially,
`availableData` is the snapshot taken before the loop
(`const availableData = this.inputBuffer.getAvailableData()`); the source
never refreshes it inside the loop, so the guard compares the frame size
against the same number on every iteration.  `none` means the fuel ran out
with the loop still running. -/
def gwfLoop (p : AudioBufferProcessor) (availableData : ℕ) :
    ℕ → CircularBuffer → List (List JSNum) → Option (List (List JSNum) × CircularBuffer)
  | 0, _, _ => none
  | fuel + 1, cb, frames =>
    if p.frameSize ≤ availableData then
      gwfLoop p availableData fuel (cb.read p.hopSize).2
        (frames ++ [windowedFrame p (cb.peek p.frameSize)])
    else some (frames, cb)

/-- Model of `getWindowedFrames()`: snapshot the available data, then run the
drain loop.  A result `some (frames, cb)` means the loop exited with the
produced frames and final buffer state; `none` means it was still looping
when the fuel ran out. -/
def getWindowedFrames (p : AudioBufferProcessor) (fuel : ℕ) :
    Option (List (List JSNum) × CircularBuffer) :=
  gwfLoop p p.inputBuffer.getAvailableData fuel p.inputBuffer []

/-! ## FFT engine (`Complex`, `FFT` in `src/utils/fft.ts`)

The `Complex` primitive is embedded over exact rationals.  The twiddle
factor `e^{i·j·θ}` with `θ = -2π/m` is `(cos, sin)` evaluated at the angle
`2π · (-j/m)`; since cosine and sine are irrational in general, the
embedding abstracts them as a parameter `trig : ℚ → ℚ × ℚ`, where `trig t`
stands for `(cos (2π t), sin (2π t))`.  Structural properties below hold
for every `trig`; concrete evaluations use `trigQ`, which supplies the
exact values at quarter turns (the only angles a size-≤ 4 transform
uses). -/

structure Cpx where
  re : ℚ
  im : ℚ
deriving DecidableEq, Repr

def Cpx.add (a b : Cpx) : Cpx := ⟨a.re + b.re, a.im + b.im⟩

def Cpx.sub (a b : Cpx) : Cpx := ⟨a.re - b.re, a.im - b.im⟩

def Cpx.mul (a b : Cpx) : Cpx :=
  ⟨a.re * b.re - a.im * b.im, a.re * b.im + a.im * b.re⟩

/-- Conjugation `new Complex(c.real, -c.imag)` as used by `ifft`. -/
def Cpx.conj (a : Cpx) : Cpx := ⟨a.re, -a.im⟩

/-- In-bounds array read; a power-of-two-sized transform never reads out
of bounds, so the default is never observable in the runs studied here. -/
def cpxGet (l : List Cpx) (i : ℕ) : Cpx := l.getD i ⟨0, 0⟩

/-- Model of `bitReverse(n, bits)`: shift the low `bits` bits of `n` into reversed
order. -/
def bitReverse (n bits : ℕ) : ℕ :=
  ((List.range bits).foldl (fun p _ => (p.1 <<< 1 ||| (p.2 &&& 1), p.2 >>> 1)) (0, n)).1

/-- The bit-reversal permutation pass of `fft`: for each `i`, swap
elements `i` and `bitReverse i` when `i < bitReverse i`. -/
def bitReversalPermute (bits : ℕ) (input : List Cpx) : List Cpx :=
  (List.range input.length).foldl
    (fun arr i =>
      let j := bitReverse i bits
      if i < j then (arr.set i (cpxGet arr j)).set j (cpxGet arr i) else arr)
    input

/-- One Cooley-Tukey stage: for each block start `k` (multiples of `m`
below `N`) and each butterfly index `j < m/2`, combine `arr[k+j]` and
`arr[k+j+m/2]` with the twiddle factor for angle `j·θ`, `θ = -2π/m`. -/
def butterflyStage (trig : ℚ → ℚ × ℚ) (N m m2 : ℕ) (arr0 : List Cpx) : List Cpx :=
  (List.range ((N + m - 1) / m)).foldl
    (fun arr (kk : ℕ) =>
      (List.range m2).foldl
        (fun arr (j : ℕ) =>
          let c := trig (-(j : ℚ) / (m : ℚ))
          let t := (cpxGet arr (kk * m + j + m2)).mul ⟨c.1, c.2⟩
          let u := cpxGet arr (kk * m + j)
          (arr.set (kk * m + j) (u.add t)).set (kk * m + j + m2) (u.sub t))
        arr)
    arr0

/-- Core of `fft` after the power-of-two check: bit reversal followed by
the `log2 N` butterfly stages (`m = 2^stage`, `m2 = m/2`). -/
def fftCore (trig : ℚ → ℚ × ℚ) (input : List Cpx) : List Cpx :=
  let N := input.length
  let bits := Nat.log2 N
  (List.range bits).foldl
    (fun arr s => butterflyStage trig N (1 <<< (s + 1)) ((1 <<< (s + 1)) >>> 1) arr)
    (bitReversalPermute bits input)

/-- Model of `isPowerOfTwo(n)`: `n > 0 && (n & (n - 1)) === 0`. -/
def isPowerOfTwoB (n : ℕ) : Bool := decide (0 < n) && (n &&& (n - 1) == 0)

/-- Model of `FFT.fft(signal)`: reject non-power-of-two lengths, otherwise convert
the real signal to complex and run the in-place transform. -/
def fft (trig : ℚ → ℚ × ℚ) (signal : List ℚ) : Except String (List Cpx) :=
  if isPowerOfTwoB signal.length then
    Except.ok (fftCore trig (signal.map fun x => ⟨x, 0⟩))
  else Except.error "FFT size must be a power of 2"

/-- Model of `FFT.ifft(complex)`: conjugate the input, then call `fft` on the REAL
PARTS of the conjugated values (`new Float32Array(conjugated.map(c =>
c.real))` - the imaginary parts are discarded because `fft` only accepts a
real-valued array), finally scale each real part of the result by `1/N`. -/
def ifft (trig : ℚ → ℚ × ℚ) (c : List Cpx) : Except String (List ℚ) :=
  let conjugated := c.map Cpx.conj
  (fft trig (conjugated.map Cpx.re)).map fun result =>
    (List.range c.length).map fun i => (cpxGet result i).re / (c.length : ℚ)

/-- Modelled from the spec: the reference inverse-transform algorithm of
§4.1 / claim C3 - conjugate every element of `c`, apply the forward fft
(the same bit-reversal + butterfly core, with the same power-of-two
check) to the conjugated COMPLEX sequence, scale by `1/N`, and return the
real parts: `ifft(c)[n] = Re(fft(conj(c))[n]) / N`. -/
def ifftSpecRef (trig : ℚ → ℚ × ℚ) (c : List Cpx) : Except String (List ℚ) :=
  if isPowerOfTwoB c.length then
    Except.ok ((fftCore trig (c.map Cpx.conj)).map fun z => z.re / (c.length : ℚ))
  else Except.error "FFT size must be a power of 2"

/-- Exact values of `(cos (2π t), sin (2π t))` at the quarter turns; a
transform of size at most 4 only ever evaluates the twiddle parameter at
`t = 0` and `t = -1/4`, where these are the true cosine/sine values. -/
def trigQ (t : ℚ) : ℚ × ℚ :=
  if t = 0 then (1, 0)
  else if t = -(1/4 : ℚ) then (0, -1)
  else if t = (1/4 : ℚ) then (0, 1)
  else if t = (1/2 : ℚ) ∨ t = -(1/2 : ℚ) then (-1, 0)
  else (0, 0)

/-! ## LPC engine (`LPC` in `src/utils/lpc.ts`)

`levinsonDurbin` works on zero-initialised `Float32Array`s `a` (LPC
coefficients, length `order+1`, `a[0]` never written), `atemp` (length
`order+1`) and `k` (reflection coefficients, length `order`), with the
prediction error `E` starting at `autocorr[0]`.  Each stage `i` divides by
the CURRENT `E` first and only then updates and checks `E ≤ 0`, breaking
out of the loop when the check fires.  `Math.sqrt` is abstracted by the
parameter `sqrtF` (only applied to non-negative rationals). -/

structure LPCResult where
  coefficients : List JSNum
  reflectionCoefficients : List JSNum
  predictionError : JSNum
  gain : JSNum
deriving DecidableEq, Repr

/-- Stage sum `sum += a[j + 1] * autocorr[i - j]` over `j < i`. -/
def ldStageSum (r a : List JSNum) (i : ℕ) : JSNum :=
  (List.range i).foldl
    (fun s (j : ℕ) => jsAdd s (jsMul (jsGet a (j + 1)) (jsGet r (i - j)))) (JSNum.num 0)

/-- The Levinson-Durbin recursion over the remaining stage indices; the
state is `(a, atemp, k, E)` and the result `(a, k, E)`.  An `E ≤ 0` after
the update ends the recursion early (the source's `break`). -/
def ldRun (r : List JSNum) :
    List ℕ → List JSNum × List JSNum × List JSNum × JSNum →
      List JSNum × List JSNum × JSNum
  | [], (a, _, k, E) => (a, k, E)
  | i :: rest, (a, atemp, k, E) =>
    let sum := ldStageSum r a i
    let ki := jsDiv (jsSub (jsGet r (i + 1)) sum) E
    let k1 := k.set i ki
    let a1 := a.set (i + 1) ki
    let atemp1 := (List.range i).foldl
      (fun t (j : ℕ) => t.set (j + 1) (jsSub (jsGet a1 (j + 1)) (jsMul ki (jsGet a1 (i - j)))))
      atemp
    let a2 := (List.range i).foldl
      (fun b (j : ℕ) => b.set (j + 1) (jsGet atemp1 (j + 1))) a1
    let E1 := jsMul E (jsSub (JSNum.num 1) (jsMul ki ki))
    if jsLe E1 (JSNum.num 0) then (a2, k1, E1)
    else ldRun r rest (a2, atemp1, k1, E1)

/-- Model of `LPC.levinsonDurbin(autocorr, order)`. -/
def levinsonDurbin (sqrtF : ℚ → ℚ) (autocorr : List JSNum) (order : ℕ) : LPCResult :=
  let res := ldRun autocorr (List.range order)
    (List.replicate (order + 1) (JSNum.num 0), List.replicate (order + 1) (JSNum.num 0),
      List.replicate order (JSNum.num 0), jsGet autocorr 0)
  { coefficients := (List.range order).map fun i => jsGet res.1 (i + 1)
    reflectionCoefficients := res.2.1
    predictionError := res.2.2
    gain := jsSqrt sqrtF res.2.2 }

/-- The loop of `LPC.reflectionToArea`, carried by the running area value:
clip each reflection coefficient to `[-0.99, 0.99]`, then multiply by the
area ratio `(1 - k) / (1 + k)`. -/
def areaLoop (a : JSNum) : List JSNum → List JSNum
  | [] => [a]
  | kc :: rest =>
    let k := jsMax (JSNum.num (-(99/100 : ℚ))) (jsMin (JSNum.num (99/100 : ℚ)) kc)
    a :: areaLoop (jsMul a (jsDiv (jsSub (JSNum.num 1) k) (jsAdd (JSNum.num 1) k))) rest

/-- Model of `LPC.reflectionToArea(reflectionCoeffs)`: `areas[0] = 1.0`, then the
clipped-ratio recurrence. -/
def reflectionToArea (reflectionCoeffs : List JSNum) : List JSNum :=
  areaLoop (JSNum.num 1) reflectionCoeffs

/-- Rational clipping to `[-0.99, 0.99]`, the specification's `k̂`. -/
def clampQ (x : ℚ) : ℚ := max (-(99/100 : ℚ)) (min (99/100 : ℚ) x)

/-- The specification's area recurrence over exact rationals:
`area[0] = a`, `area[i+1] = area[i] · (1 - k̂[i]) / (1 + k̂[i])`. -/
def areaSeqQ (a : ℚ) : List ℚ → List ℚ
  | [] => [a]
  | kc :: rest => a :: areaSeqQ (a * ((1 - clampQ kc) / (1 + clampQ kc))) rest

/-! ## Pitch estimator (`FeatureExtractor.estimatePitch` in
`src/audio/FeatureExtractor.ts`)

The autocorrelation array has length `maxPeriod = ⌊sampleRate/50⌋` and is
zero-initialised; the computation loop starts at
`minPeriod = ⌊sampleRate/500⌋`, so `autocorr[0]` is NEVER written whenever
`minPeriod ≥ 1` (i.e. `sampleRate ≥ 500`).  `null` is modelled as
`none`. -/

/-- One autocorrelation value:
`Σ_{i < frame.length - lag} frame[i]·frame[i+lag]` (at lag 0 this is the
frame's energy, the sum of squares). -/
def autocorrAt (frame : List JSNum) (lag : ℕ) : JSNum :=
  (List.range (frame.length - lag)).foldl
    (fun s (i : ℕ) => jsAdd s (jsMul (jsGet frame i) (jsGet frame (i + lag)))) (JSNum.num 0)

def estimatePitch (sampleRate : ℚ) (frame : List JSNum) : Option JSNum :=
  let minPeriod : ℕ := (⌊sampleRate / 500⌋).toNat
  let maxPeriod : ℕ := (⌊sampleRate / 50⌋).toNat
  let lags := List.range' minPeriod (maxPeriod - minPeriod)
  let autocorr := lags.foldl (fun ac (lag : ℕ) => ac.set lag (autocorrAt frame lag))
    (List.replicate maxPeriod (JSNum.num 0))
  let best := lags.foldl
    (fun (mv : JSNum × ℕ) (i : ℕ) =>
      if jsLt mv.1 (jsGet autocorr i) then (jsGet autocorr i, i) else mv)
    (JSNum.num 0, 0)
  let threshold := jsMul (jsGet autocorr 0) (JSNum.num (3/10 : ℚ))
  if jsLt best.1 threshold then none
  else some (jsDiv (JSNum.num sampleRate) (JSNum.num (best.2 : ℚ)))


/-! ## Examples, helper lemmas and claim theorems -/

example : jsDiv (.num 0) (.num 0) = .nan := by decide
example : jsDiv (.num 1000) (.num 0) = .inf true := by decide
example : jsMul (.num 0) .nan = .nan := by decide
example : jsLe .nan (.num 0) = false := by decide
example : jsAdd (.num (1/3)) (.num (1/6)) = .num (1/2) := by norm_num [jsAdd]

-- Writing exactly the capacity then reading it back: the final write
-- collides with the read cursor, so the read returns the tail of the
-- written data followed by one zero.
example :
    ((CircularBuffer.new 2).write [JSNum.num 1, JSNum.num 2]).read 2 =
      ([JSNum.num 2, JSNum.num 0],
        { buffer := [JSNum.num 1, JSNum.num 2], writeIndex := 0, readIndex := 0,
          size := 2, filled := false }) := by
  decide


/-! ### Helper lemmas about `jsGet` and `List.set` -/

lemma jsGet_set_self {l : List JSNum} {i : ℕ} (h : i < l.length) (x : JSNum) :
    jsGet (l.set i x) i = x := by
  simp [jsGet, List.getD_eq_getElem?_getD, List.getElem?_set_eq_of_lt x h]

lemma jsGet_set_ne {l : List JSNum} {i j : ℕ} (h : i ≠ j) (x : JSNum) :
    jsGet (l.set i x) j = jsGet l j := by
  simp [jsGet, List.getD_eq_getElem?_getD, List.getElem?_set_ne h]

lemma jsGet_lt {l : List JSNum} {i : ℕ} (h : i < l.length) :
    jsGet l i = l[i] := by
  simp [jsGet, List.getD_eq_getElem?_getD, List.getElem?_eq_getElem h]

lemma take_succ_set (x : JSNum) :
    ∀ (buf : List JSNum) (w : ℕ), w < buf.length →
      (buf.set w x).take (w + 1) = buf.take w ++ [x]
  | [], w, h => by simp at h
  | b :: bs, 0, _ => by simp
  | b :: bs, w + 1, h => by
    simp only [List.set_cons_succ, List.take_succ_cons]
    rw [take_succ_set x bs w (by simpa using h)]
    simp

/-! ### Writing exactly up to capacity -/

lemma write_cons (cb : CircularBuffer) (x : JSNum) (d : List JSNum) :
    cb.write (x :: d) = (writeOne cb x).write d := rfl

/-- Filling the remaining free space of a not-yet-full buffer whose read
cursor sits at 0: the final write makes the write cursor collide with the
read cursor, setting `filled` and advancing the read cursor to `1 % S`. -/
lemma write_to_full (S : ℕ) :
    ∀ (d : List JSNum) (buf : List JSNum) (w : ℕ),
      d ≠ [] → buf.length = S → w + d.length = S →
      CircularBuffer.write ⟨buf, w, 0, S, false⟩ d =
        ⟨buf.take w ++ d, 0, 1 % S, S, true⟩
  | [], _, _, hne, _, _ => absurd rfl hne
  | [x], buf, w, _, hbuf, hlen => by
    have hw : w + 1 = S := by simpa using hlen
    have hwlt : w < buf.length := by omega
    simp only [CircularBuffer.write, List.foldl_cons, List.foldl_nil, writeOne]
    have h1 : (w + 1) % S = 0 := by rw [hw]; exact Nat.mod_self S
    simp only [h1, if_pos rfl]
    have h2 : buf.set w x = buf.take w ++ [x] := by
      rw [List.set_eq_take_cons_drop x hwlt]
      have : List.drop (w + 1) buf = [] := List.drop_eq_nil_of_le (by omega)
      simp [this]
    simp [h2, CircularBuffer.write]
  | x :: y :: d, buf, w, _, hbuf, hlen => by
    have hlt : w + 1 < S := by simp at hlen; omega
    have hwlt : w < buf.length := by omega
    rw [write_cons]
    have hstep : writeOne ⟨buf, w, 0, S, false⟩ x =
        ⟨buf.set w x, w + 1, 0, S, false⟩ := by
      simp only [writeOne]
      have h1 : (w + 1) % S = w + 1 := Nat.mod_eq_of_lt hlt
      simp [h1, Nat.succ_ne_zero]
    rw [hstep, write_to_full S (y :: d) (buf.set w x) (w + 1) (by simp)
      (by simpa using hbuf) (by simp at hlen ⊢; omega)]
    rw [take_succ_set x buf w hwlt]
    simp

/-- Writing a sequence of length exactly `S` into a fresh buffer of
capacity `S` leaves the storage equal to the data, the write cursor at 0,
the read cursor pushed to `1 % S`, and the buffer marked full. -/
lemma write_exact_new (S : ℕ) (d : List JSNum) (hd : d.length = S) (hS : 1 ≤ S) :
    (CircularBuffer.new S).write d = ⟨d, 0, 1 % S, S, true⟩ := by
  have hne : d ≠ [] := by
    intro h; subst h; simp at hd; omega
  have := write_to_full S d (List.replicate S (JSNum.num 0)) 0 hne (by simp) (by omega)
  simpa [CircularBuffer.new] using this

/-! ### Reading back a full buffer -/

/-- Reading from a full buffer with write cursor at 0 and read cursor at
`r ∈ [1, S)`: reading exactly the `S - r` available slots yields the
samples at positions `r, …, S-1` and clears the `filled` flag with both
cursors at 0. -/
lemma read_full_to_empty (S : ℕ) (d : List JSNum) (hd : d.length = S) :
    ∀ (k r : ℕ), 1 ≤ r → r < S → r + k = S →
      CircularBuffer.read ⟨d, 0, r, S, true⟩ k =
        ((d.drop r).take k, ⟨d, 0, 0, S, false⟩)
  | 0, r, _, hr2, hrk => by omega
  | k + 1, r, hr1, hr2, hrk => by
    have hrd : r < d.length := by omega
    have hone : readOne ⟨d, 0, r, S, true⟩ =
        (d[r], ⟨d, 0, (r + 1) % S, S, if (r + 1) % S = 0 then false else true⟩) := by
      simp only [readOne]
      rw [if_neg (by simp)]
      simp [jsGet_lt hrd]
    rcases Nat.lt_or_ge (r + 1) S with hlt | hge
    · have h1 : (r + 1) % S = r + 1 := Nat.mod_eq_of_lt hlt
      simp only [CircularBuffer.read, hone, h1, if_neg (by omega : ¬ r + 1 = 0)]
      rw [read_full_to_empty S d hd k (r + 1) (by omega) hlt (by omega)]
      rw [List.drop_eq_getElem_cons hrd, List.take_succ_cons]
    · have hr1S : r + 1 = S := by omega
      have hk0 : k = 0 := by omega
      subst hk0
      have h1 : (r + 1) % S = 0 := by rw [hr1S]; exact Nat.mod_self S
      simp only [CircularBuffer.read, hone, h1, if_pos rfl]
      rw [List.drop_eq_getElem_cons hrd]
      have hnil : List.drop (r + 1) d = [] := List.drop_eq_nil_of_le (by omega)
      simp [hnil]

/-- Reading from an empty buffer yields zeros and does not change the
state. -/
lemma read_empty (cb : CircularBuffer) (hf : cb.filled = false)
    (he : cb.readIndex = cb.writeIndex) :
    ∀ n, cb.read n = (List.replicate n (JSNum.num 0), cb)
  | 0 => by simp [CircularBuffer.read]
  | n + 1 => by
    have hone : readOne cb = (JSNum.num 0, cb) := by
      simp [readOne, hf, he]
    simp only [CircularBuffer.read, hone, read_empty cb hf he n]
    simp [List.replicate_succ]

lemma read_add (cb : CircularBuffer) :
    ∀ (m n : ℕ),
      cb.read (m + n) =
        ((cb.read m).1 ++ ((cb.read m).2.read n).1, ((cb.read m).2.read n).2) := by
  intro m
  induction m generalizing cb with
  | zero => intro n; simp [CircularBuffer.read]
  | succ m ih =>
    intro n
    have : m + 1 + n = (m + n) + 1 := by omega
    rw [this]
    simp only [CircularBuffer.read, ih (readOne cb).2 n]
    simp

/-- Round trip at exactly capacity, general form: the read returns the
written data shifted by one with a trailing zero. -/
lemma roundTrip_shifted (S : ℕ) (d : List JSNum) (hd : d.length = S) (hS : 2 ≤ S) :
    (((CircularBuffer.new S).write d).read S).1 = d.drop 1 ++ [JSNum.num 0] := by
  rw [write_exact_new S d hd (by omega)]
  have h1 : 1 % S = 1 := Nat.mod_eq_of_lt (by omega)
  rw [h1]
  have htake : (d.drop 1).take (S - 1) = d.drop 1 :=
    List.take_of_length_le (by simp [hd])
  have hread : CircularBuffer.read ⟨d, 0, 1, S, true⟩ S =
      (d.drop 1 ++ [JSNum.num 0], ⟨d, 0, 0, S, false⟩) := by
    have e : CircularBuffer.read (⟨d, 0, 1, S, true⟩ : CircularBuffer) S =
        CircularBuffer.read (⟨d, 0, 1, S, true⟩ : CircularBuffer) ((S - 1) + 1) := by
      congr 1
      omega
    rw [e, read_add, read_full_to_empty S d hd (S - 1) 1 le_rfl (by omega) (by omega),
      read_empty _ rfl rfl 1]
    rw [htake]
    rfl
  rw [hread]

/-! ### Overflow: writing more than the capacity -/

lemma write_append (cb : CircularBuffer) (l1 l2 : List JSNum) :
    cb.write (l1 ++ l2) = (cb.write l1).write l2 := by
  simp [CircularBuffer.write, List.foldl_append]

/-- Invariant for the over-capacity writing regime: once the buffer is
full with the read cursor one slot ahead of the write cursor, every
further write keeps that shape, and slot `(t + r) % S` always holds the
sample written `S - r` steps ago. -/
lemma write_overflow_invariant (S : ℕ) (hS : 1 ≤ S) (d : List JSNum) :
    ∀ (fuel t : ℕ) (buf : List JSNum), d.length = t + fuel → S ≤ t → buf.length = S →
      (∀ r, r < S → jsGet buf ((t + r) % S) = jsGet d (t - S + r)) →
      ∃ B : List JSNum,
        CircularBuffer.write ⟨buf, t % S, (t % S + 1) % S, S, true⟩ (d.drop t) =
          ⟨B, d.length % S, (d.length % S + 1) % S, S, true⟩ ∧
        B.length = S ∧
        ∀ r, r < S → jsGet B ((d.length + r) % S) = jsGet d (d.length - S + r)
  | 0, t, buf, hfuel, hSt, hbuf, hinv => by
    have ht : t = d.length := by omega
    subst ht
    refine ⟨buf, ?_, hbuf, hinv⟩
    simp [CircularBuffer.write, List.drop_eq_nil_of_le (le_refl d.length)]
  | fuel + 1, t, buf, hfuel, hSt, hbuf, hinv => by
    have htd : t < d.length := by omega
    rw [List.drop_eq_getElem_cons htd, write_cons]
    have hmodlt : t % S < S := Nat.mod_lt _ (by omega)
    have hstep : writeOne ⟨buf, t % S, (t % S + 1) % S, S, true⟩ d[t] =
        ⟨buf.set (t % S) d[t], (t + 1) % S, ((t + 1) % S + 1) % S, S, true⟩ := by
      simp only [writeOne, Nat.mod_add_mod]
      simp
    rw [hstep]
    have hinv1 : ∀ r, r < S →
        jsGet (buf.set (t % S) d[t]) ((t + 1 + r) % S) = jsGet d (t + 1 - S + r) := by
      intro r hr
      rcases Nat.lt_or_ge r (S - 1) with hrlt | hrge
      · have hne : t % S ≠ (t + 1 + r) % S := by
          intro heq
          have hmod : (t + 1 + r) % S = t % S := heq.symm
          have hdvd : S ∣ (t + 1 + r) - t :=
            (Nat.modEq_iff_dvd' (by omega)).mp (Nat.ModEq.symm hmod)
          have harr : t + 1 + r - t = r + 1 := by omega
          rw [harr] at hdvd
          have : S ≤ r + 1 := Nat.le_of_dvd (by omega) hdvd
          omega
        rw [jsGet_set_ne hne]
        have := hinv (r + 1) (by omega)
        have harith : t + (r + 1) = t + 1 + r := by omega
        rw [harith] at this
        rw [this]
        congr 1
        omega
      · have hreq : r = S - 1 := by omega
        subst hreq
        have harith : t + 1 + (S - 1) = t + S := by omega
        rw [harith, Nat.add_mod_right]
        rw [jsGet_set_self (by omega) d[t]]
        have harith2 : t + 1 - S + (S - 1) = t := by omega
        rw [harith2, jsGet_lt htd]
    obtain ⟨B, hB1, hB2, hB3⟩ :=
      write_overflow_invariant S hS d fuel (t + 1) (buf.set (t % S) d[t])
        (by omega) (by omega) (by simpa using hbuf) hinv1
    exact ⟨B, hB1, hB2, hB3⟩

/-- Writing strictly more than the capacity from a fresh buffer: the
buffer ends full, with the backing store holding exactly the last `S`
samples written. -/
lemma write_overflow (S : ℕ) (d : List JSNum) (hS : 1 ≤ S) (hlen : S < d.length) :
    ∃ B : List JSNum,
      (CircularBuffer.new S).write d =
        ⟨B, d.length % S, (d.length % S + 1) % S, S, true⟩ ∧
      B.length = S ∧
      ∀ r, r < S → jsGet B ((d.length + r) % S) = jsGet d (d.length - S + r) := by
  have hSS : S % S = 0 := Nat.mod_self S
  have hinv0 : ∀ r, r < S →
      jsGet (d.take S) ((S + r) % S) = jsGet d (S - S + r) := by
    intro r hr
    have h1 : (S + r) % S = r := by
      rw [Nat.add_comm, Nat.add_mod_right]
      exact Nat.mod_eq_of_lt hr
    rw [h1]
    have h2 : S - S + r = r := by omega
    rw [h2]
    simp only [jsGet, List.getD_eq_getElem?_getD]
    rw [List.getElem?_take_of_lt hr]
  obtain ⟨B, hB1, hB2, hB3⟩ :=
    write_overflow_invariant S hS d (d.length - S) S (d.take S)
      (by omega) le_rfl (by simp; omega) hinv0
  refine ⟨B, ?_, hB2, hB3⟩
  conv_lhs => rw [← List.take_append_drop S d]
  rw [write_append, write_exact_new S (d.take S) (by simp; omega) hS]
  have hstate : (⟨d.take S, 0, 1 % S, S, true⟩ : CircularBuffer) =
      ⟨d.take S, S % S, (S % S + 1) % S, S, true⟩ := by
    rw [hSS]
  rw [hstate, hB1]

/-! ### Cursor invariant on reachable states -/

lemma bufInv_writeOne {S : ℕ} {cb : CircularBuffer} (h : BufInv S cb) (x : JSNum) :
    BufInv S (writeOne cb x) := by
  obtain ⟨h1, h2, h3, h4⟩ := h
  have hS : 0 < S := by omega
  have hwi : (cb.writeIndex + 1) % cb.size < S := by rw [h1]; exact Nat.mod_lt _ hS
  have hri : (cb.readIndex + 1) % cb.size < S := by rw [h1]; exact Nat.mod_lt _ hS
  simp only [writeOne]
  split
  · exact ⟨h1, by simpa using h2, hwi, hri⟩
  · exact ⟨h1, by simpa using h2, hwi, h4⟩

lemma bufInv_write {S : ℕ} {cb : CircularBuffer} (h : BufInv S cb) (data : List JSNum) :
    BufInv S (cb.write data) := by
  induction data generalizing cb with
  | nil => exact h
  | cons x d ih => exact ih (bufInv_writeOne h x)

lemma bufInv_readOne {S : ℕ} {cb : CircularBuffer} (h : BufInv S cb) :
    BufInv S (readOne cb).2 := by
  obtain ⟨h1, h2, h3, h4⟩ := h
  have hS : 0 < S := by omega
  have hri : (cb.readIndex + 1) % cb.size < S := by rw [h1]; exact Nat.mod_lt _ hS
  simp only [readOne]
  split
  · exact ⟨h1, h2, h3, h4⟩
  · exact ⟨h1, h2, h3, hri⟩

lemma bufInv_read {S : ℕ} {cb : CircularBuffer} (h : BufInv S cb) (n : ℕ) :
    BufInv S (cb.read n).2 := by
  induction n generalizing cb with
  | zero => exact h
  | succ n ih => exact ih (bufInv_readOne h)

lemma bufInv_clear {S : ℕ} {cb : CircularBuffer} (h : BufInv S cb) :
    BufInv S cb.clear := by
  obtain ⟨h1, h2, h3, h4⟩ := h
  refine ⟨h1, by simpa [CircularBuffer.clear] using h2, ?_, ?_⟩ <;>
    · simp only [CircularBuffer.clear]
      omega

lemma reachable_bufInv {S : ℕ} {cb : CircularBuffer} (h : Reachable S cb) :
    BufInv S cb := by
  induction h with
  | fresh hS => exact ⟨rfl, by simp [CircularBuffer.new], by simpa using hS, by simpa using hS⟩
  | write cb data _ ih => exact bufInv_write ih data
  | read cb n _ ih => exact bufInv_read ih n
  | clear cb _ ih => exact bufInv_clear ih

lemma avail_le_of_bufInv {S : ℕ} {cb : CircularBuffer} (h : BufInv S cb) :
    cb.getAvailableData ≤ S := by
  obtain ⟨h1, _, h3, h4⟩ := h
  unfold CircularBuffer.getAvailableData
  by_cases hf : cb.filled
  · simp [hf, h1]
  · simp only [hf, if_false, Bool.false_eq_true]
    by_cases hle : cb.readIndex ≤ cb.writeIndex
    · simp only [if_pos hle]
      omega
    · simp only [if_neg hle]
      omega

/-! ### `peek` index bounds -/

lemma peekStart_bounds {cb : CircularBuffer} {length offset : ℕ}
    (hw : cb.writeIndex < cb.size) (hlo : length + offset ≤ cb.size) :
    0 ≤ peekStart cb length offset ∧ peekStart cb length offset < (cb.size : ℤ) := by
  have hS : (0 : ℤ) < (cb.size : ℤ) := by exact_mod_cast Nat.lt_of_le_of_lt (Nat.zero_le _) hw
  have hnum : (0 : ℤ) ≤ (cb.writeIndex : ℤ) - length - offset + cb.size := by
    have : (length : ℤ) + offset ≤ cb.size := by exact_mod_cast hlo
    omega
  unfold peekStart
  constructor
  · exact Int.tmod_nonneg _ hnum
  · exact Int.tmod_lt_of_pos _ hS

lemma peekIndicesFrom_bounds {S : ℕ} (hS : 0 < S) :
    ∀ (n : ℕ) (idx : ℤ), 0 ≤ idx → idx < (S : ℤ) →
      ∀ i ∈ peekIndicesFrom S n idx, 0 ≤ i ∧ i < (S : ℤ)
  | 0, _, _, _ => by intro i hi; simp [peekIndicesFrom] at hi
  | n + 1, idx, h0, h1 => by
    intro i hi
    simp only [peekIndicesFrom, List.mem_cons] at hi
    rcases hi with rfl | hi
    · exact ⟨h0, h1⟩
    · have hSZ : (0 : ℤ) < (S : ℤ) := by exact_mod_cast hS
      exact peekIndicesFrom_bounds hS n (Int.tmod (idx + 1) S)
        (Int.tmod_nonneg _ (by omega)) (Int.tmod_lt_of_pos _ hSZ) i hi

lemma peekIndices_bounds {cb : CircularBuffer} {length offset : ℕ}
    (hw : cb.writeIndex < cb.size) (hlo : length + offset ≤ cb.size) :
    ∀ i ∈ peekIndices cb length offset, 0 ≤ i ∧ i < (cb.size : ℤ) := by
  obtain ⟨hp0, hp1⟩ := peekStart_bounds hw hlo
  exact peekIndicesFrom_bounds (by omega) length (peekStart cb length offset) hp0 hp1


lemma gwfLoop_none_of_ge (p : AudioBufferProcessor) (availableData : ℕ)
    (h : p.frameSize ≤ availableData) :
    ∀ (fuel : ℕ) (cb : CircularBuffer) (frames : List (List JSNum)),
      gwfLoop p availableData fuel cb frames = none
  | 0, _, _ => rfl
  | fuel + 1, cb, frames => by
    simp only [gwfLoop, if_pos h]
    exact gwfLoop_none_of_ge p availableData h fuel _ _
-- Sanity checks of the transform against the textbook DFT: a constant
-- signal concentrates in bin 0, and an impulse at index 1 produces the
-- fourth roots of unity.
example : fft trigQ [1, 1, 1, 1] = Except.ok [⟨4, 0⟩, ⟨0, 0⟩, ⟨0, 0⟩, ⟨0, 0⟩] := by
  norm_num +decide [fft, fftCore, bitReversalPermute, butterflyStage, bitReverse, cpxGet,
    trigQ, Cpx.add, Cpx.sub, Cpx.mul, isPowerOfTwoB, List.range_succ,
    Nat.shiftLeft_eq, Nat.shiftRight_eq_div_pow, Nat.log2]

example : fft trigQ [0, 1, 0, 0] =
    Except.ok [⟨1, 0⟩, ⟨0, -1⟩, ⟨-1, 0⟩, ⟨0, 1⟩] := by
  norm_num +decide [fft, fftCore, bitReversalPermute, butterflyStage, bitReverse, cpxGet,
    trigQ, Cpx.add, Cpx.sub, Cpx.mul, isPowerOfTwoB, List.range_succ,
    Nat.shiftLeft_eq, Nat.shiftRight_eq_div_pow, Nat.log2]

/-! ### Length preservation and the power-of-two check -/

lemma foldl_length_inv {α : Type} {f : List Cpx → α → List Cpx}
    (hf : ∀ arr i, (f arr i).length = arr.length) :
    ∀ (l : List α) (arr : List Cpx), (l.foldl f arr).length = arr.length
  | [], _ => rfl
  | i :: l, arr => by
    rw [List.foldl_cons, foldl_length_inv hf l (f arr i), hf]

lemma bitReversalPermute_length (bits : ℕ) (input : List Cpx) :
    (bitReversalPermute bits input).length = input.length := by
  unfold bitReversalPermute
  apply foldl_length_inv
  intro arr i
  dsimp only
  split <;> simp

lemma butterflyStage_length (trig : ℚ → ℚ × ℚ) (N m m2 : ℕ) (arr0 : List Cpx) :
    (butterflyStage trig N m m2 arr0).length = arr0.length := by
  unfold butterflyStage
  apply foldl_length_inv
  intro arr kk
  apply foldl_length_inv
  intro arr2 j
  simp

lemma fftCore_length (trig : ℚ → ℚ × ℚ) (input : List Cpx) :
    (fftCore trig input).length = input.length := by
  unfold fftCore
  rw [foldl_length_inv (fun arr s => butterflyStage_length trig _ _ _ arr),
    bitReversalPermute_length]

lemma isPowerOfTwoB_iff (n : ℕ) : isPowerOfTwoB n = true ↔ ∃ k, n = 2 ^ k := by
  constructor
  · intro h
    simp only [isPowerOfTwoB, Bool.and_eq_true, decide_eq_true_eq, beq_iff_eq] at h
    obtain ⟨hpos, hland⟩ := h
    refine ⟨Nat.log2 n, ?_⟩
    by_contra hne
    set k := Nat.log2 n with hk
    have hle : 2 ^ k ≤ n := Nat.log2_self_le (by omega)
    have hlt : n < 2 ^ (k + 1) := Nat.lt_log2_self
    have hgt : 2 ^ k < n := lt_of_le_of_ne hle (fun he => hne he.symm)
    have hdiv : n / 2 ^ k = 1 := by
      apply Nat.div_eq_of_lt_le
      · simpa using hle
      · have : 2 ^ (k + 1) = 2 * 2 ^ k := by ring
        omega
    have hdiv1 : (n - 1) / 2 ^ k = 1 := by
      apply Nat.div_eq_of_lt_le
      · simp only [one_mul]
        omega
      · have : 2 ^ (k + 1) = 2 * 2 ^ k := by ring
        omega
    have hbit : (n &&& (n - 1)).testBit k = true := by
      rw [Nat.testBit_land, Nat.testBit_to_div_mod, Nat.testBit_to_div_mod, hdiv, hdiv1]
      simp
    rw [hland] at hbit
    simp [Nat.zero_testBit] at hbit
  · rintro ⟨k, rfl⟩
    simp only [isPowerOfTwoB, Bool.and_eq_true, decide_eq_true_eq, beq_iff_eq]
    refine ⟨Nat.pos_pow_of_pos k (by omega), ?_⟩
    apply Nat.eq_of_testBit_eq
    intro i
    rw [Nat.testBit_land, Nat.testBit_two_pow, Nat.testBit_two_pow_sub_one, Nat.zero_testBit]
    by_cases hik : k = i
    · subst hik
      simp
    · simp [hik]

lemma fft_ok_length (trig : ℚ → ℚ × ℚ) (signal : List ℚ)
    (h : ∃ k, signal.length = 2 ^ k) :
    (fft trig signal).map List.length = Except.ok signal.length := by
  rw [fft, if_pos ((isPowerOfTwoB_iff _).mpr h)]
  simp [Except.map, fftCore_length]

lemma fft_error_of_not_pow (trig : ℚ → ℚ × ℚ) (signal : List ℚ)
    (h : ¬ ∃ k, signal.length = 2 ^ k) :
    fft trig signal = Except.error "FFT size must be a power of 2" := by
  rw [fft, if_neg]
  intro hc
  exact h ((isPowerOfTwoB_iff _).mp hc)

lemma ifft_on_spectrum_of_impulse :
    ifft trigQ [⟨1, 0⟩, ⟨0, -1⟩, ⟨-1, 0⟩, ⟨0, 1⟩] =
      Except.ok [0, 1/2, 0, 1/2] := by
  norm_num +decide [ifft, fft, fftCore, bitReversalPermute, butterflyStage, bitReverse,
    cpxGet, trigQ, Cpx.add, Cpx.sub, Cpx.mul, Cpx.conj, Cpx.re, isPowerOfTwoB,
    List.range_succ, Nat.shiftLeft_eq, Nat.shiftRight_eq_div_pow, Nat.log2, Except.map]

lemma ifftSpecRef_on_spectrum_of_impulse :
    ifftSpecRef trigQ [⟨1, 0⟩, ⟨0, -1⟩, ⟨-1, 0⟩, ⟨0, 1⟩] =
      Except.ok [0, 1, 0, 0] := by
  norm_num +decide [ifftSpecRef, fftCore, bitReversalPermute, butterflyStage, bitReverse,
    cpxGet, trigQ, Cpx.add, Cpx.sub, Cpx.mul, Cpx.conj, Cpx.re, isPowerOfTwoB,
    List.range_succ, Nat.shiftLeft_eq, Nat.shiftRight_eq_div_pow, Nat.log2]


/-! ### Transfer lemmas between `JSNum` and exact rational arithmetic -/

lemma jsAdd_num (a b : ℚ) : jsAdd (JSNum.num a) (JSNum.num b) = JSNum.num (a + b) := rfl

lemma jsSub_num (a b : ℚ) : jsSub (JSNum.num a) (JSNum.num b) = JSNum.num (a - b) := by
  simp [jsSub, jsNeg, jsAdd, sub_eq_add_neg]

lemma jsMul_num (a b : ℚ) : jsMul (JSNum.num a) (JSNum.num b) = JSNum.num (a * b) := rfl

lemma jsDiv_num {b : ℚ} (a : ℚ) (h : b ≠ 0) :
    jsDiv (JSNum.num a) (JSNum.num b) = JSNum.num (a / b) := by
  simp [jsDiv, h]

lemma jsMin_num (x y : ℚ) : jsMin (JSNum.num x) (JSNum.num y) = JSNum.num (min x y) := by
  simp only [jsMin, jsLt]
  rcases lt_or_ge y x with h | h
  · rw [if_pos (by simpa using h), min_eq_right (le_of_lt h)]
  · rw [if_neg (by simpa using not_lt.mpr h), min_eq_left h]

lemma jsMax_num (x y : ℚ) : jsMax (JSNum.num x) (JSNum.num y) = JSNum.num (max x y) := by
  simp only [jsMax, jsLt]
  rcases lt_or_ge x y with h | h
  · rw [if_pos (by simpa using h), max_eq_right (le_of_lt h)]
  · rw [if_neg (by simpa using not_lt.mpr h), max_eq_left h]

/-! ### `reflectionToArea` refines the rational recurrence -/

lemma clampQ_lower (x : ℚ) : -(99/100 : ℚ) ≤ clampQ x := le_max_left _ _

lemma one_add_clampQ_ne (x : ℚ) : 1 + clampQ x ≠ 0 := by
  have := clampQ_lower x
  intro h
  nlinarith

lemma areaLoop_map_num (k : List ℚ) : ∀ a : ℚ,
    areaLoop (JSNum.num a) (k.map JSNum.num) = (areaSeqQ a k).map JSNum.num := by
  induction k with
  | nil => intro a; rfl
  | cons kc rest ih =>
    intro a
    show areaLoop (JSNum.num a) (JSNum.num kc :: rest.map JSNum.num) = _
    rw [areaLoop]
    have hclip : jsMax (JSNum.num (-(99/100 : ℚ))) (jsMin (JSNum.num (99/100 : ℚ)) (JSNum.num kc)) =
        JSNum.num (clampQ kc) := by
      rw [jsMin_num, jsMax_num, clampQ]
    rw [hclip, jsSub_num, jsAdd_num, jsDiv_num _ (one_add_clampQ_ne kc), jsMul_num, ih]
    rfl

lemma areaSeqQ_length (k : List ℚ) : ∀ a : ℚ, (areaSeqQ a k).length = k.length + 1 := by
  induction k with
  | nil => intro a; rfl
  | cons kc rest ih => intro a; simp [areaSeqQ, ih]

lemma areaSeqQ_head (a : ℚ) (k : List ℚ) : (areaSeqQ a k).getD 0 0 = a := by
  cases k <;> rfl

lemma areaSeqQ_step (k : List ℚ) : ∀ (a : ℚ) (i : ℕ), i < k.length →
    (areaSeqQ a k).getD (i + 1) 0 =
      (areaSeqQ a k).getD i 0 *
        ((1 - clampQ (k.getD i 0)) / (1 + clampQ (k.getD i 0))) := by
  induction k with
  | nil => intro a i hi; simp at hi
  | cons kc rest ih =>
    intro a i hi
    cases i with
    | zero =>
      show (areaSeqQ (a * _) rest).getD 0 0 = _
      rw [areaSeqQ_head]
      rfl
    | succ i =>
      show (areaSeqQ (a * _) rest).getD (i + 1) 0 = _
      rw [ih _ i (by simpa using hi)]
      rfl

lemma areaSeqQ_zeros : ∀ n : ℕ, areaSeqQ 1 (List.replicate n (0 : ℚ)) =
    List.replicate (n + 1) (1 : ℚ)
  | 0 => rfl
  | n + 1 => by
    have hc : clampQ 0 = 0 := by norm_num [clampQ]
    show (1 : ℚ) :: areaSeqQ (1 * ((1 - clampQ 0) / (1 + clampQ 0))) (List.replicate n 0) = _
    rw [hc]
    norm_num [areaSeqQ_zeros n, List.replicate_succ]

/-! ## Claim theorems -/

/-- C1 (corrected): the original claim - writing a sequence of length
exactly `S` into a fresh capacity-`S` buffer and reading `S` samples
returns the sequence unchanged - is FALSE: the final write makes the
write cursor collide with the read cursor, which marks the buffer full
and pushes the read cursor past the first sample.  Counterexample at
`S = 2`, `d = [1, 2]`: the read returns `[2, 0]`. -/
theorem C1_roundTrip_counterexample :
    (((CircularBuffer.new 2).write [JSNum.num 1, JSNum.num 2]).read 2).1 ≠
      [JSNum.num 1, JSNum.num 2] := by
  decide

/-- C1 (amended): for every capacity `S ≥ 2` and data `d` of length
exactly `S`, writing `d` into a fresh buffer and reading `S` samples
returns `d[1], …, d[S-1]` followed by a single zero - the FULL transition
triggered by the final write skips `d[0]`, and the last read hits the
empty-buffer case.  (For `S ≤ 1` the original round trip does hold.) -/
theorem C1_roundTrip_shifted (S : ℕ) (d : List JSNum)
    (hd : d.length = S) (hS : 2 ≤ S) :
    (((CircularBuffer.new S).write d).read S).1 = d.drop 1 ++ [JSNum.num 0] :=
  roundTrip_shifted S d hd hS

theorem C1_roundTrip_shifted_witness :
    (((CircularBuffer.new 3).write [JSNum.num 4, JSNum.num 5, JSNum.num 6]).read 3).1 =
      [JSNum.num 5, JSNum.num 6, JSNum.num 0] :=
  C1_roundTrip_shifted 3 [JSNum.num 4, JSNum.num 5, JSNum.num 6] (by decide) (by decide)

/-- C2 (code bug): `getWindowedFrames()` does NOT terminate whenever a
frame's worth of data is available.  The loop guard compares `frameSize`
against `availableData`, a `const` snapshot taken before the loop and
never refreshed, so: (1) if the snapshot is at least `frameSize`, the
loop body (peek, window, push, `read(hopSize)`) runs forever - no fuel
suffices; (2) only when the snapshot is already below `frameSize` does
the call return, immediately, with no frames and an untouched buffer. -/
theorem C2_getWindowedFrames_stale_guard (p : AudioBufferProcessor) (fuel : ℕ) :
    (p.frameSize ≤ p.inputBuffer.getAvailableData → getWindowedFrames p fuel = none) ∧
    (p.inputBuffer.getAvailableData < p.frameSize → 1 ≤ fuel →
      getWindowedFrames p fuel = some ([], p.inputBuffer)) := by
  constructor
  · intro h
    exact gwfLoop_none_of_ge p _ h fuel _ _
  · intro h hf
    cases fuel with
    | zero => omega
    | succ f =>
      have hcond : ¬ (p.frameSize ≤ p.inputBuffer.getAvailableData) := by omega
      simp only [getWindowedFrames, gwfLoop, if_neg hcond]

theorem C2_getWindowedFrames_stale_guard_witness :
    getWindowedFrames
      ⟨⟨List.replicate 4 (JSNum.num 0), 0, 0, 4, true⟩, 2, 1,
        List.replicate 2 (JSNum.num 1)⟩ 100 = none ∧
    getWindowedFrames
      ⟨⟨List.replicate 4 (JSNum.num 0), 0, 0, 4, false⟩, 2, 1,
        List.replicate 2 (JSNum.num 1)⟩ 100 =
      some ([], ⟨List.replicate 4 (JSNum.num 0), 0, 0, 4, false⟩) :=
  ⟨(C2_getWindowedFrames_stale_guard _ 100).1 (by decide),
   (C2_getWindowedFrames_stale_guard _ 100).2 (by decide) (by decide)⟩

/-- C3 (code bug): `ifft` does not implement the reference algorithm
`ifft(c)[n] = Re(fft(conj(c))[n]) / N`.  The code conjugates the input
but then passes only the REAL parts of the conjugated values to `fft`
(whose parameter is a real `Float32Array`), silently discarding the
imaginary parts.  On the spectrum `[1, -i, -1, i]` of the real impulse
`[0, 1, 0, 0]`, the reference recovers `[0, 1, 0, 0]` while the code
returns `[0, 1/2, 0, 1/2]`. -/
theorem C3_ifft_discards_imaginary_parts :
    fft trigQ [0, 1, 0, 0] = Except.ok [⟨1, 0⟩, ⟨0, -1⟩, ⟨-1, 0⟩, ⟨0, 1⟩] ∧
    ifft trigQ [⟨1, 0⟩, ⟨0, -1⟩, ⟨-1, 0⟩, ⟨0, 1⟩] = Except.ok [0, 1/2, 0, 1/2] ∧
    ifftSpecRef trigQ [⟨1, 0⟩, ⟨0, -1⟩, ⟨-1, 0⟩, ⟨0, 1⟩] = Except.ok [0, 1, 0, 0] ∧
    ifft trigQ [⟨1, 0⟩, ⟨0, -1⟩, ⟨-1, 0⟩, ⟨0, 1⟩] ≠
      ifftSpecRef trigQ [⟨1, 0⟩, ⟨0, -1⟩, ⟨-1, 0⟩, ⟨0, 1⟩] := by
  refine ⟨?_, ifft_on_spectrum_of_impulse, ifftSpecRef_on_spectrum_of_impulse, ?_⟩
  · norm_num +decide [fft, fftCore, bitReversalPermute, butterflyStage, bitReverse, cpxGet,
      trigQ, Cpx.add, Cpx.sub, Cpx.mul, isPowerOfTwoB, List.range_succ,
      Nat.shiftLeft_eq, Nat.shiftRight_eq_div_pow, Nat.log2]
  · rw [ifft_on_spectrum_of_impulse, ifftSpecRef_on_spectrum_of_impulse]
    intro h
    norm_num at h

/-- C4 (code bug): the unvoiced test compares the in-range maximum against
`0.3 · autocorr[0]`, but `autocorr[0]` is never computed - the
autocorrelation loop starts at `minPeriod = ⌊sampleRate/500⌋ ≥ 1` for any
`sampleRate ≥ 500` - so the threshold is `0.3 · 0 = 0` and `null` is
unreachable.  At `sampleRate = 500` with the impulse frame `[1, 0]` the
frame's zero-lag autocorrelation (its energy) is 1, all in-range
autocorrelations are 0, so the claim requires `null`; the code instead
keeps `maxIndex = 0` and returns `sampleRate / 0 = +∞`. -/
theorem C4_estimatePitch_threshold_dead :
    estimatePitch 500 [JSNum.num 1, JSNum.num 0] = some (JSNum.inf true) ∧
    autocorrAt [JSNum.num 1, JSNum.num 0] 0 = JSNum.num 1 ∧
    estimatePitch 500 [JSNum.num 1, JSNum.num 0] ≠ none := by
  refine ⟨?_, ?_, ?_⟩
  · norm_num +decide [estimatePitch, autocorrAt, jsAdd, jsMul, jsDiv, jsLt, jsGet,
      List.range_succ, List.range']
  · norm_num +decide [autocorrAt, jsAdd, jsMul, jsGet, List.range_succ]
  · norm_num +decide [estimatePitch, autocorrAt, jsAdd, jsMul, jsDiv, jsLt, jsGet,
      List.range_succ, List.range']

/-- C5 (code bug): on an all-zero autocorrelation vector the claimed
result (`predictionError = 0`, all-zero coefficients) does not happen.
`E` starts at `autocorr[0] = 0` and stage 0 divides by it BEFORE the
stability check can fire: `k₀ = (0 - 0)/0 = NaN`, after which NaN
propagates (and `NaN ≤ 0` is false, so the early exit never triggers).
With the repository's own test input (`new Float32Array(5)`, order 4) the
result is all-NaN; no exception is thrown (every operation is total). -/
theorem C5_levinsonDurbin_zero_autocorr_nan :
    levinsonDurbin id (List.replicate 5 (JSNum.num 0)) 4 =
      { coefficients := List.replicate 4 JSNum.nan,
        reflectionCoefficients := List.replicate 4 JSNum.nan,
        predictionError := JSNum.nan, gain := JSNum.nan } ∧
    (levinsonDurbin id (List.replicate 5 (JSNum.num 0)) 4).predictionError ≠
      JSNum.num 0 := by
  constructor
  · norm_num +decide [levinsonDurbin, ldRun, ldStageSum, jsAdd, jsSub, jsMul, jsDiv,
      jsNeg, jsLe, jsGet, jsSqrt, List.range_succ]
  · norm_num +decide [levinsonDurbin, ldRun, ldStageSum, jsAdd, jsSub, jsMul, jsDiv,
      jsNeg, jsLe, jsGet, jsSqrt, List.range_succ]

/-- C6 (corrected): the original claim - `predictionError ≥ 0` for every
autocorrelation input and order - is FALSE: with `autocorr = [-1, 0]` and
order 1 the recursion computes `k₀ = 0`, updates `E = -1 · (1 - 0) = -1`,
and the `E ≤ 0` early exit returns `predictionError = -1`. -/
theorem C6_predictionError_counterexample :
    (levinsonDurbin id [JSNum.num (-1), JSNum.num 0] 1).predictionError =
      JSNum.num (-1) ∧
    jsLe (JSNum.num 0)
      ((levinsonDurbin id [JSNum.num (-1), JSNum.num 0] 1).predictionError) = false := by
  constructor
  · norm_num +decide [levinsonDurbin, ldRun, ldStageSum, jsAdd, jsSub, jsMul, jsDiv,
      jsNeg, jsLe, jsGet, jsSqrt, List.range_succ]
  · norm_num +decide [levinsonDurbin, ldRun, ldStageSum, jsAdd, jsSub, jsMul, jsDiv,
      jsNeg, jsLe, jsGet, jsSqrt, List.range_succ]

/-- C6 (amended): what remains true of the claim for every autocorrelation
input and every order: the returned `gain` equals the square root of the
returned `predictionError` under JavaScript `Math.sqrt` semantics (the
square root of a negative value or NaN being NaN); `predictionError ≥ 0`
itself can fail when the `E ≤ 0` early exit returns a negative value. -/
theorem C6_gain_is_sqrt_of_predictionError (sqrtF : ℚ → ℚ)
    (autocorr : List JSNum) (order : ℕ) :
    (levinsonDurbin sqrtF autocorr order).gain =
      jsSqrt sqrtF ((levinsonDurbin sqrtF autocorr order).predictionError) := rfl

/-- C7 (confirmed): for every reflection-coefficient vector `k` of length
`n`, `reflectionToArea` computes exactly the rational recurrence
`area[0] = 1`, `area[i+1] = area[i] · (1 - k̂[i]) / (1 + k̂[i])` with
`k̂[i]` the clip of `k[i]` into `[-0.99, 0.99]`; the output has length
`n + 1`, and an all-zero vector yields all areas `1.0`. -/
theorem C7_reflectionToArea_recurrence (k : List ℚ) (n : ℕ) :
    reflectionToArea (k.map JSNum.num) = (areaSeqQ 1 k).map JSNum.num ∧
    (areaSeqQ 1 k).length = k.length + 1 ∧
    (areaSeqQ 1 k).getD 0 0 = 1 ∧
    (∀ i, i < k.length →
      (areaSeqQ 1 k).getD (i + 1) 0 =
        (areaSeqQ 1 k).getD i 0 *
          ((1 - clampQ (k.getD i 0)) / (1 + clampQ (k.getD i 0)))) ∧
    reflectionToArea (List.replicate n (JSNum.num 0)) =
      List.replicate (n + 1) (JSNum.num 1) := by
  refine ⟨areaLoop_map_num k 1, areaSeqQ_length k 1, areaSeqQ_head 1 k,
    fun i hi => areaSeqQ_step k 1 i hi, ?_⟩
  have hmap : List.replicate n (JSNum.num 0) = (List.replicate n (0 : ℚ)).map JSNum.num := by
    simp
  rw [reflectionToArea, hmap, areaLoop_map_num, areaSeqQ_zeros n]
  simp

theorem C7_reflectionToArea_recurrence_witness :
    (areaSeqQ 1 [(1/2 : ℚ)]).getD 1 0 =
      (areaSeqQ 1 [(1/2 : ℚ)]).getD 0 0 *
        ((1 - clampQ (([(1/2 : ℚ)]).getD 0 0)) / (1 + clampQ (([(1/2 : ℚ)]).getD 0 0))) ∧
    reflectionToArea (List.replicate 2 (JSNum.num 0)) =
      List.replicate 3 (JSNum.num 1) :=
  ⟨(C7_reflectionToArea_recurrence [(1/2 : ℚ)] 2).2.2.2.1 0 (by decide),
   (C7_reflectionToArea_recurrence [(1/2 : ℚ)] 2).2.2.2.2⟩

/-- C8 (confirmed): `fft` fails with the `InvalidSize` condition (the
thrown `"FFT size must be a power of 2"`, surfaced as an `Except.error`)
for every input whose length is not a power of two, and for every
power-of-two length succeeds with a complex output of exactly the input
length - for every twiddle-factor function. -/
theorem C8_fft_size_contract (trig : ℚ → ℚ × ℚ) (signal : List ℚ) :
    ((∃ k, signal.length = 2 ^ k) →
      (fft trig signal).map List.length = Except.ok signal.length) ∧
    ((¬ ∃ k, signal.length = 2 ^ k) →
      fft trig signal = Except.error "FFT size must be a power of 2") :=
  ⟨fun h => fft_ok_length trig signal h, fun h => fft_error_of_not_pow trig signal h⟩

theorem C8_fft_size_contract_witness :
    (fft trigQ [1, 2]).map List.length = Except.ok 2 ∧
    fft trigQ [1, 2, 3] = Except.error "FFT size must be a power of 2" := by
  constructor
  · exact (C8_fft_size_contract trigQ [1, 2]).1 ⟨1, rfl⟩
  · refine (C8_fft_size_contract trigQ [1, 2, 3]).2 ?_
    rintro ⟨k, hk⟩
    rcases k with _ | _ | k
    · simp at hk
    · simp at hk
    · have h1 : 1 ≤ 2 ^ k := Nat.one_le_two_pow
      have he : (2 : ℕ) ^ (k + 2) = 4 * 2 ^ k := by ring
      simp only [List.length_cons, List.length_nil, he] at hk
      omega

/-- C9 (confirmed): on every state reachable by write/read/clear calls
from a fresh buffer of capacity `S ≥ 1`, `getAvailableData()` never
exceeds `S`; and writing more than `S` samples (in one uninterrupted
writing spree, per the spec's overflow scenario) leaves the buffer in the
FULL state with `getAvailableData() = S` and the backing store holding
exactly the LAST `S` samples written - the oldest are dropped. -/
theorem C9_capacity_bound_and_overflow :
    (∀ (S : ℕ) (cb : CircularBuffer), Reachable S cb → cb.getAvailableData ≤ S) ∧
    (∀ (S : ℕ) (d : List JSNum), 1 ≤ S → S < d.length →
      ((CircularBuffer.new S).write d).isFull = true ∧
      ((CircularBuffer.new S).write d).getAvailableData = S ∧
      ∀ r, r < S →
        jsGet ((CircularBuffer.new S).write d).buffer ((d.length + r) % S) =
          jsGet d (d.length - S + r)) := by
  constructor
  · intro S cb h
    exact avail_le_of_bufInv (reachable_bufInv h)
  · intro S d hS hlen
    obtain ⟨B, hB1, hB2, hB3⟩ := write_overflow S d hS hlen
    rw [hB1]
    exact ⟨rfl, rfl, hB3⟩

theorem C9_capacity_bound_and_overflow_witness :
    (CircularBuffer.new 2).getAvailableData ≤ 2 ∧
    ((CircularBuffer.new 2).write [JSNum.num 1, JSNum.num 2, JSNum.num 3]).isFull = true ∧
    ((CircularBuffer.new 2).write [JSNum.num 1, JSNum.num 2, JSNum.num 3]).getAvailableData = 2 ∧
    jsGet ((CircularBuffer.new 2).write [JSNum.num 1, JSNum.num 2, JSNum.num 3]).buffer 1 =
      JSNum.num 2 := by
  have h2 := C9_capacity_bound_and_overflow.2 2 [JSNum.num 1, JSNum.num 2, JSNum.num 3]
    (by decide) (by decide)
  refine ⟨C9_capacity_bound_and_overflow.1 2 (CircularBuffer.new 2)
    (Reachable.fresh (by decide)), h2.1, h2.2.1, ?_⟩
  have := h2.2.2 0 (by decide)
  simpa using this

/-- C10 (confirmed): for every buffer state whose write cursor is in
range and every `length`, `offset` with `length + offset ≤ size`, every
backing-store index probed by `peek(length, offset)` lies in `[0, size)`;
and the precondition really is load-bearing - `peek` validates nothing,
and the concrete call `peek(5, 0)` on a fresh size-4 buffer starts at the
out-of-range index `-1`. -/
theorem C10_peek_index_bounds :
    (∀ (cb : CircularBuffer) (length offset : ℕ),
      cb.writeIndex < cb.size → length + offset ≤ cb.size →
      ∀ i ∈ peekIndices cb length offset, 0 ≤ i ∧ i < (cb.size : ℤ)) ∧
    (peekStart ⟨List.replicate 4 (JSNum.num 0), 0, 0, 4, false⟩ 5 0 = -1 ∧
      peekStart ⟨List.replicate 4 (JSNum.num 0), 0, 0, 4, false⟩ 5 0 ∈
        peekIndices ⟨List.replicate 4 (JSNum.num 0), 0, 0, 4, false⟩ 5 0 ∧
      ¬ (0 : ℤ) ≤ peekStart ⟨List.replicate 4 (JSNum.num 0), 0, 0, 4, false⟩ 5 0) := by
  refine ⟨fun cb length offset hw hlo => peekIndices_bounds hw hlo, ?_, ?_, ?_⟩
  · decide
  · decide
  · decide

theorem C10_peek_index_bounds_witness :
    0 ≤ peekStart ⟨List.replicate 4 (JSNum.num 0), 2, 0, 4, false⟩ 3 1 ∧
    peekStart ⟨List.replicate 4 (JSNum.num 0), 2, 0, 4, false⟩ 3 1 < 4 :=
  C10_peek_index_bounds.1 ⟨List.replicate 4 (JSNum.num 0), 2, 0, 4, false⟩ 3 1
    (by decide) (by decide) _ (by decide)

